import Mathlib

/-!
# Verification of the crop cryptographic toolkit core

Shallow embedding of the crop package (Go) into Lean 4:
sequence checkers (`secret.go`), the hash-based MAC (`mac.go`),
the context-hash challenge (`challenge.go`) and the value hasher.
Bytes are modelled as `Nat` (values < 256 where produced by the code),
byte slices as `List Nat`, and `uint64` arithmetic as `Nat` with an
explicit `% 2 ^ 64` where Go's 64-bit truncation matters.
Hash primitives (BLAKE3, HMAC) are external library code and are
modelled as abstract functions `List Nat → List Nat`.
-/

/-! ## Sequence checkers (secret.go) -/

/-- State of `StrictSequenceChecker`: the highest accepted inbound
sequence number `inSeq` (the outbound counter is independent and
modelled separately). -/
def StrictFresh : Nat := 0

/-- Source `StrictSequenceChecker.CheckInSequence` (secret.go): reject when
`n <= inSeq`, otherwise record `n` and accept. Returns the `ok` flag
and the updated `inSeq` state. -/
def StrictCheckInSequence (n : Nat) (inSeq : Nat) : Bool × Nat :=
  if n ≤ inSeq then (false, inSeq)
  else (true, n)

/-- Source `NextOutSequence` (both checkers): atomically increment and return
the outbound counter. Returns the issued value and the new counter. -/
def NextOutSequence (outSeq : Nat) : Nat × Nat :=
  (outSeq + 1, outSeq + 1)

/-- State of `LooseSequenceChecker`: the 64-bit window bitmap and the
highest accepted inbound sequence number. -/
structure LooseSequenceChecker where
  inBitMap : Nat
  inHighest : Nat
deriving DecidableEq, Repr

/-- Source `fullBitMap = 0xFFFF_FFFF_FFFF_FFFF` (secret.go). -/
def fullBitMap : Nat := 2 ^ 64 - 1

/-- Source `NewLooseSequenceChecker` (secret.go): starts with a full bitmap
and highest sequence number 0. -/
def NewLooseSequenceChecker : LooseSequenceChecker :=
  { inBitMap := fullBitMap, inHighest := 0 }

/-- Source `LooseSequenceChecker.CheckInSequence` (secret.go): the three-way
switch on `seqNum` versus `inHighest`. Go's `uint64` left shift by
`diff ≥ 64` yields 0, matched here by the `% 2 ^ 64`. -/
def LooseCheckInSequence (seqNum : Nat) (lsc : LooseSequenceChecker) :
    Bool × LooseSequenceChecker :=
  if seqNum = lsc.inHighest then
    (false, lsc)
  else if lsc.inHighest < seqNum then
    let diff := seqNum - lsc.inHighest
    (true, { inBitMap := (lsc.inBitMap <<< diff) % 2 ^ 64, inHighest := seqNum })
  else
    let diff := lsc.inHighest - seqNum
    if 64 < diff then (false, lsc)
    else
      let bitMapPosition : Nat := 1 <<< (diff - 1)
      if 0 < lsc.inBitMap &&& bitMapPosition then (false, lsc)
      else (true, { inBitMap := lsc.inBitMap ||| bitMapPosition, inHighest := lsc.inHighest })

/-- Run a list of `CheckInSequence` calls, keeping only the final state. -/
def LooseRun (calls : List Nat) (s : LooseSequenceChecker) : LooseSequenceChecker :=
  calls.foldl (fun st n => (LooseCheckInSequence n st).2) s

/-- C9: the strict checker accepts (recording `n` as the new highest)
iff `n` is strictly greater than the stored highest, which starts at 0;
otherwise it rejects and leaves the state unchanged. -/
theorem strict_checker_accept_iff_greater (n s : Nat) :
    ((StrictCheckInSequence n s).1 = true ↔ s < n) ∧
    StrictCheckInSequence n s = (if s < n then (true, n) else (false, s)) ∧
    StrictFresh = 0 := by
  unfold StrictCheckInSequence StrictFresh
  rcases Nat.lt_or_ge s n with h | h
  · rw [if_neg (Nat.not_le.mpr h), if_pos h]
    simp [h]
  · rw [if_pos h, if_neg (Nat.not_lt.mpr h)]
    simp [Nat.not_lt.mpr h]

/-- C8: on a fresh loose checker, 100 is accepted; then 36 (diff = 64,
window edge) is accepted once and rejected on resubmission, while 35
(diff = 65) is rejected. -/
theorem loose_checker_window_edge :
    (LooseCheckInSequence 100 NewLooseSequenceChecker).1 = true ∧
    (LooseCheckInSequence 36 (LooseRun [100] NewLooseSequenceChecker)).1 = true ∧
    (LooseCheckInSequence 36 (LooseRun [100, 36] NewLooseSequenceChecker)).1 = false ∧
    (LooseCheckInSequence 35 (LooseRun [100, 36] NewLooseSequenceChecker)).1 = false ∧
    (LooseCheckInSequence 35 (LooseRun [100, 36, 36] NewLooseSequenceChecker)).1 = false := by
  decide

/-- C10: on a fresh loose checker, 0 is rejected (fully-set initial
bitmap); after 1 is accepted, 0 is accepted exactly once and rejected
on resubmission. -/
theorem loose_checker_zero_after_one :
    (LooseCheckInSequence 0 NewLooseSequenceChecker).1 = false ∧
    (LooseCheckInSequence 1 NewLooseSequenceChecker).1 = true ∧
    (LooseCheckInSequence 0 (LooseRun [1] NewLooseSequenceChecker)).1 = true ∧
    (LooseCheckInSequence 0 (LooseRun [1, 0] NewLooseSequenceChecker)).1 = false := by
  decide

/-- C1 fails on the code: on a fresh loose checker, 1 is accepted and
2 is accepted, after which the stored highest is 2 (so highest - 1 = 1
≤ 64, within the horizon), yet resubmitting the already-accepted 1 is
accepted again. Advancing the highest shifts the bitmap but never sets
the bit recording the superseded old highest, so that number's
acceptance is forgotten and it can be replayed. -/
theorem loose_checker_replays_superseded_highest :
    (LooseCheckInSequence 1 NewLooseSequenceChecker).1 = true ∧
    (LooseCheckInSequence 2 (LooseRun [1] NewLooseSequenceChecker)).1 = true ∧
    (LooseRun [1, 2] NewLooseSequenceChecker).inHighest - 1 ≤ 64 ∧
    (LooseCheckInSequence 1 (LooseRun [1, 2] NewLooseSequenceChecker)).1 = true := by
  decide

/-! ## Value hasher

The value-hasher implementation file is not present in the source tree
(only its test `hash_test.go` and its caller `challenge.go` are), so it
is modelled from the spec, and checked against the stream-reconstruction
helper `buildValueHasherStream` that the test suite ships. -/

/-- Big-endian 8-byte encoding of a 64-bit value
(`binary.BigEndian.PutUint64`). -/
def be8 (x : Nat) : List Nat :=
  [x / 2 ^ 56 % 256, x / 2 ^ 48 % 256, x / 2 ^ 40 % 256, x / 2 ^ 32 % 256,
   x / 2 ^ 24 % 256, x / 2 ^ 16 % 256, x / 2 ^ 8 % 256, x % 256]

/-- Modelled from the spec: `ValueHasher` (its implementation file is
missing from the sources; only `hash_test.go` and `challenge.go` refer
to it). It owns an incremental hash state and a field counter `i`
starting at 0. The incremental hash state is modelled by the exact byte
stream fed to it so far (`stream`); finalizing the hash is applying an
abstract digest function to that stream. -/
structure ValueHasher where
  i : Nat
  stream : List Nat
deriving DecidableEq, Repr

/-- Modelled from the spec: a fresh value hasher — counter 0, nothing
fed to the hash yet. -/
def NewValueHasher : ValueHasher :=
  { i := 0, stream := [] }

/-- Modelled from the spec: `Add(field)` increments `i` and feeds the
8-byte big-endian `i`, the 8-byte big-endian field length, then the raw
field bytes into the underlying hash. -/
def ValueHasher.Add (vh : ValueHasher) (field : List Nat) : ValueHasher :=
  { i := vh.i + 1,
    stream := vh.stream ++ be8 (vh.i + 1) ++ be8 field.length ++ field }

/-- Modelled from the spec: `AddString(s)` is `Add` of the bytes of `s`
(strings are modelled as byte lists). -/
def ValueHasher.AddString (vh : ValueHasher) (s : List Nat) : ValueHasher :=
  vh.Add s

/-- Modelled from the spec: `Sum` emits the 16-byte finisher — 8-byte
big-endian field count then eight `0xFF` bytes — followed by the digest
of the stream fed so far. The finisher itself is not hashed. -/
def ValueHasher.Sum (vh : ValueHasher) (H : List Nat → List Nat) : List Nat :=
  be8 vh.i ++ List.replicate 8 0xFF ++ H vh.stream

/-- Source `buildValueHasherStream` (hash_test.go), generalized over the
starting value of the running id so that it supports induction: the
test's helper starts with `id = 0` and increments it before writing
each record. -/
def buildStreamFrom (id : Nat) : List (List Nat) → List Nat
  | [] => []
  | f :: rest => be8 (id + 1) ++ be8 f.length ++ f ++ buildStreamFrom (id + 1) rest

/-- Source `buildValueHasherStream` (hash_test.go): the exact byte stream the
value hasher feeds to its hash for a given field sequence. -/
def buildValueHasherStream (fields : List (List Nat)) : List Nat :=
  buildStreamFrom 0 fields

/-- Folding `Add` over fields advances the counter by the field count
and appends exactly the per-field records to the stream. -/
theorem foldl_Add_eq (fields : List (List Nat)) :
    ∀ (k : Nat) (s : List Nat),
      fields.foldl ValueHasher.Add { i := k, stream := s }
        = { i := k + fields.length, stream := s ++ buildStreamFrom k fields } := by
  induction fields with
  | nil => intro k s; simp [buildStreamFrom]
  | cons f rest ih =>
      intro k s
      simp only [List.foldl_cons, ValueHasher.Add, buildStreamFrom]
      rw [ih]
      simp [ValueHasher.mk.injEq, List.append_assoc]
      omega

/-- C2: for every digest function and field sequence, `Sum` is exactly
the 16-byte finisher (8-byte big-endian field count, then eight `0xFF`
bytes) followed by the digest of the stream reconstructed by
`buildValueHasherStream`; the bytes fed to the hash are exactly that
stream (the finisher is never fed), and since the computation is a pure
function of the field sequence, two independently constructed hashers
fed identical fields are byte-identical. -/
theorem valueHasher_sum_format (H : List Nat → List Nat) (fields : List (List Nat)) :
    (fields.foldl ValueHasher.Add NewValueHasher).Sum H
      = be8 fields.length ++ List.replicate 8 0xFF ++ H (buildValueHasherStream fields) ∧
    (fields.foldl ValueHasher.Add NewValueHasher).stream = buildValueHasherStream fields := by
  have h := foldl_Add_eq fields 0 []
  rw [NewValueHasher, h]
  simp [ValueHasher.Sum, buildValueHasherStream]

/-! ## Context hash challenge (challenge.go) -/

/-- The fixed internal value `"hashed context challenge"` fed first by
`makeHash` (challenge.go), as ASCII bytes. -/
def hccFixedValue : List Nat :=
  [104, 97, 115, 104, 101, 100, 32, 99, 111, 110, 116, 101, 120, 116,
   32, 99, 104, 97, 108, 108, 101, 110, 103, 101]

/-- Source `HashedContextChallenge` (challenge.go): purpose, the two identity
contexts and the random challenge secret. The hash algorithm choice is
passed to the operations as an abstract digest function. -/
structure HashedContextChallenge where
  purpose : List Nat
  requesterContext : List Nat
  responderContext : List Nat
  challengeData : List Nat
deriving DecidableEq, Repr

/-- Error `ErrChallengeFailed`. -/
inductive ChallengeError
  | challengeFailed
deriving DecidableEq, Repr

/-- Source `HashedContextChallenge.GetChallenge` (challenge.go). -/
def HashedContextChallenge.GetChallenge (hcc : HashedContextChallenge) : List Nat :=
  hcc.challengeData

/-- Source `HashedContextChallenge.makeHash` (challenge.go): value-hash the
fixed literal, the purpose, the two contexts — requester first when
checking (`reverse = false`), responder first when responding
(`reverse = true`) — and finally the input bytes. -/
def HashedContextChallenge.makeHash (hcc : HashedContextChallenge)
    (H : List Nat → List Nat) (input : List Nat) (reverse : Bool) : List Nat :=
  let vh := NewValueHasher
  let vh := vh.AddString hccFixedValue
  let vh := vh.AddString hcc.purpose
  let vh :=
    if !reverse then (vh.AddString hcc.requesterContext).AddString hcc.responderContext
    else (vh.AddString hcc.responderContext).AddString hcc.requesterContext
  let vh := vh.Add input
  vh.Sum H

/-- Source `HashedContextChallenge.CheckResponse` (challenge.go): constant-time
compare the candidate against the forward-order hash of the stored
challenge secret. -/
def HashedContextChallenge.CheckResponse (hcc : HashedContextChallenge)
    (H : List Nat → List Nat) (data : List Nat) : Except ChallengeError Unit :=
  if data = hcc.makeHash H hcc.challengeData false then Except.ok ()
  else Except.error ChallengeError.challengeFailed

/-- Source `HashedContextChallenge.MakeResponse` (challenge.go): the
reverse-order hash of the received challenge (its error is always nil
in the source). -/
def HashedContextChallenge.MakeResponse (hcc : HashedContextChallenge)
    (H : List Nat → List Nat) (challenge : List Nat) : List Nat :=
  hcc.makeHash H challenge true

/-- The encoding `be8` is injective below `2 ^ 64`. -/
theorem be8_inj {a b : Nat} (ha : a < 2 ^ 64) (hb : b < 2 ^ 64)
    (h : be8 a = be8 b) : a = b := by
  simp only [be8, List.cons.injEq, and_true] at h
  omega

/-- Cancelling an identical leading record of the test's stream builder. -/
theorem buildStreamFrom_cons_inj (k : Nat) (f : List Nat) (r1 r2 : List (List Nat))
    (h : buildStreamFrom k (f :: r1) = buildStreamFrom k (f :: r2)) :
    buildStreamFrom (k + 1) r1 = buildStreamFrom (k + 1) r2 := by
  simp only [buildStreamFrom] at h
  exact (List.append_inj h rfl).2

/-- Streams whose leading fields differ are different byte streams:
the 8-byte length framing makes the first divergence visible either in
the length bytes or in the field bytes themselves. -/
theorem buildStreamFrom_head_ne (k : Nat) (a b : List Nat) (r1 r2 : List (List Nat))
    (ha : a.length < 2 ^ 64) (hb : b.length < 2 ^ 64) (hab : a ≠ b) :
    buildStreamFrom k (a :: r1) ≠ buildStreamFrom k (b :: r2) := by
  intro h
  simp only [buildStreamFrom, List.append_assoc] at h
  have h1 := (List.append_inj h rfl).2
  have h2 := List.append_inj h1 rfl
  have hlen : a.length = b.length := be8_inj ha hb h2.1
  exact hab (List.append_inj h2.2 hlen).1

/-- An explicit five-field `Add` chain is the fold of `Add`, hence its
state is the counter 5 and the test helper's stream of those fields. -/
theorem add_chain_five (p x y inp : List Nat) :
    ((((NewValueHasher.AddString hccFixedValue).AddString p).AddString
        x).AddString y).Add inp
      = { i := 5, stream := buildStreamFrom 0 [hccFixedValue, p, x, y, inp] } := by
  have h := foldl_Add_eq [hccFixedValue, p, x, y, inp] 0 []
  simpa [ValueHasher.AddString, NewValueHasher] using h

/-- The hash `makeHash` in both directions, written via the test helper's stream. -/
theorem makeHash_eq (p rq rs cd : List Nat) (H : List Nat → List Nat)
    (input : List Nat) :
    (HashedContextChallenge.makeHash ⟨p, rq, rs, cd⟩ H input false
       = ValueHasher.Sum ⟨5, buildStreamFrom 0 [hccFixedValue, p, rq, rs, input]⟩ H) ∧
    (HashedContextChallenge.makeHash ⟨p, rq, rs, cd⟩ H input true
       = ValueHasher.Sum ⟨5, buildStreamFrom 0 [hccFixedValue, p, rs, rq, input]⟩ H) := by
  constructor <;> simp [HashedContextChallenge.makeHash, add_chain_five]

/-- C6: with distinct contexts, a challenge issued by the instance
`(purpose, reqCtx, resCtx)` is answered successfully by an instance
constructed with the contexts swapped, while a response computed by
`MakeResponse` on any instance carrying the same unswapped contexts
(in particular the issuing instance itself) is rejected — given a
collision-free digest. -/
theorem challenge_swap_accept_unswapped_reject
    (H : List Nat → List Nat) (hinj : Function.Injective H)
    (purpose reqCtx resCtx c d e : List Nat)
    (hne : reqCtx ≠ resCtx)
    (hlr : reqCtx.length < 2 ^ 64) (hls : resCtx.length < 2 ^ 64) :
    HashedContextChallenge.CheckResponse
        { purpose := purpose, requesterContext := reqCtx, responderContext := resCtx,
          challengeData := c } H
        (HashedContextChallenge.MakeResponse
          { purpose := purpose, requesterContext := resCtx, responderContext := reqCtx,
            challengeData := d } H
          (HashedContextChallenge.GetChallenge
            { purpose := purpose, requesterContext := reqCtx, responderContext := resCtx,
              challengeData := c })) = Except.ok () ∧
    HashedContextChallenge.CheckResponse
        { purpose := purpose, requesterContext := reqCtx, responderContext := resCtx,
          challengeData := c } H
        (HashedContextChallenge.MakeResponse
          { purpose := purpose, requesterContext := reqCtx, responderContext := resCtx,
            challengeData := e } H
          (HashedContextChallenge.GetChallenge
            { purpose := purpose, requesterContext := reqCtx, responderContext := resCtx,
              challengeData := c })) = Except.error ChallengeError.challengeFailed := by
  have hstream : buildStreamFrom 0 [hccFixedValue, purpose, resCtx, reqCtx, c]
      ≠ buildStreamFrom 0 [hccFixedValue, purpose, reqCtx, resCtx, c] := by
    intro h
    have h1 := buildStreamFrom_cons_inj 0 hccFixedValue _ _ h
    have h2 := buildStreamFrom_cons_inj 1 purpose _ _ h1
    exact buildStreamFrom_head_ne 2 resCtx reqCtx _ _ hls hlr (Ne.symm hne) h2
  constructor
  · simp [HashedContextChallenge.CheckResponse, HashedContextChallenge.MakeResponse,
          HashedContextChallenge.GetChallenge, HashedContextChallenge.makeHash]
  · have hres : HashedContextChallenge.makeHash ⟨purpose, reqCtx, resCtx, e⟩ H c true
        ≠ HashedContextChallenge.makeHash ⟨purpose, reqCtx, resCtx, c⟩ H c false := by
      rw [(makeHash_eq purpose reqCtx resCtx e H c).2,
        (makeHash_eq purpose reqCtx resCtx c H c).1]
      intro h
      simp only [ValueHasher.Sum] at h
      exact hstream (hinj (List.append_inj h rfl).2)
    show (if HashedContextChallenge.makeHash ⟨purpose, reqCtx, resCtx, e⟩ H c true
          = HashedContextChallenge.makeHash ⟨purpose, reqCtx, resCtx, c⟩ H c false
        then Except.ok () else Except.error ChallengeError.challengeFailed)
        = Except.error ChallengeError.challengeFailed
    exact if_neg hres

/-- Witness for C6 at the identity digest and concrete one-byte
contexts. -/
theorem challenge_swap_witness :
    HashedContextChallenge.CheckResponse
        { purpose := [], requesterContext := [0], responderContext := [1],
          challengeData := [2] } (fun s => s)
        (HashedContextChallenge.MakeResponse
          { purpose := [], requesterContext := [1], responderContext := [0],
            challengeData := [] } (fun s => s)
          (HashedContextChallenge.GetChallenge
            { purpose := [], requesterContext := [0], responderContext := [1],
              challengeData := [2] })) = Except.ok () ∧
    HashedContextChallenge.CheckResponse
        { purpose := [], requesterContext := [0], responderContext := [1],
          challengeData := [2] } (fun s => s)
        (HashedContextChallenge.MakeResponse
          { purpose := [], requesterContext := [0], responderContext := [1],
            challengeData := [] } (fun s => s)
          (HashedContextChallenge.GetChallenge
            { purpose := [], requesterContext := [0], responderContext := [1],
              challengeData := [2] })) = Except.error ChallengeError.challengeFailed :=
  challenge_swap_accept_unswapped_reject (fun s => s) (fun a b h => h)
    [] [0] [1] [2] [] [] (by decide) (by decide) (by decide)

/-! ## Hash-based MAC (mac.go)

The signing and verifying hash objects (`hmac.New(BLAKE3.New, key)` or
keyed BLAKE3) are external library primitives; they are modelled as
abstract digest functions from the full byte stream written to them to
their digest. `crypto/rand` salt is passed in as a parameter. Bytes in
slices are values below 256; for such inputs the `Nat` varint
arithmetic below coincides with Go's `uint64` arithmetic (no reachable
truncation on a path that returns a value). -/

/-- Source `macMinSaltSize` (mac.go). -/
def macMinSaltSize : Nat := 8

/-- Source `macSaltSize` (mac.go). -/
def macSaltSize : Nat := 16

/-- Error class `ErrAuthCodeInvalid`: the three ways `Verify` fails,
all wrapping the same sentinel in the source. -/
inductive AuthCodeError
  | tooShort
  | checksumMismatch
  | sequenceViolation
deriving DecidableEq, Repr

/-- Source `binary.PutUvarint`: little-endian base-128 with continuation bit. -/
def putUvarint (x : Nat) : List Nat :=
  if _h : x < 128 then [x]
  else (x % 128 + 128) :: putUvarint (x / 128)
termination_by x
decreasing_by simp_wf; omega

/-- Source `binary.Uvarint`'s loop: `x` is the accumulator, `s` the shift and
`i` the byte index; `none` models Go's `n <= 0` returns (empty or
truncated buffer, or 64-bit overflow after 10 bytes). -/
def uvarintLoop : List Nat → Nat → Nat → Nat → Option (Nat × Nat)
  | [], _, _, _ => none
  | b :: rest, x, s, i =>
    if i = 10 then none
    else if b < 128 then
      if i = 9 ∧ 1 < b then none
      else some (x ||| (b <<< s), i + 1)
    else uvarintLoop rest (x ||| ((b &&& 127) <<< s)) (s + 7) (i + 1)

/-- Source `binary.Uvarint`: value and number of bytes read. -/
def uvarint (buf : List Nat) : Option (Nat × Nat) :=
  uvarintLoop buf 0 0 0

/-- Go's `copy(buf[off:], src)` on an otherwise unchanged buffer:
writes `min src.length (buf.length - off)` bytes at `off`. -/
def writeBytes (buf : List Nat) (off : Nat) (src : List Nat) : List Nat :=
  buf.take off ++ src.take (buf.length - off) ++ buf.drop (off + src.length)

/-- Source `HashBasedMAC.Sign` (mac.go): allocate `9 + 16 + digestSize` bytes,
put the uvarint of the next outbound sequence number at the start, the
16 random salt bytes after it, then the signer's digest of the written
region followed by `data`, and truncate to the written size. Returns
the tag and the advanced outbound counter. -/
def HashBasedMACSign (digestSize : Nat) (signer : List Nat → List Nat)
    (outSeq : Nat) (salt : List Nat) (data : List Nat) : List Nat × Nat :=
  let seqPair := NextOutSequence outSeq
  let mac0 := List.replicate (9 + macSaltSize + digestSize) 0
  let v := putUvarint seqPair.1
  let mac1 := writeBytes mac0 0 v
  let size1 := v.length
  let mac2 := writeBytes mac1 size1 salt
  let size2 := size1 + macSaltSize
  let checksum := signer (mac2.take size2 ++ data)
  let mac3 := writeBytes mac2 size2 checksum
  (mac3.take (size2 + digestSize), seqPair.2)

/-- Source `HashBasedMAC.Verify` (mac.go): parse the leading uvarint, check
the salt region size, recompute the keyed digest over the
varint-and-salt region followed by `data`, constant-time compare it
with the trailing bytes, and only then consult the sequence checker.
Polymorphic in the checker so that "the checker is never invoked" is
expressible. Returns the verdict and the (possibly updated) checker
state. -/
def HashBasedMACVerify {σ : Type} (digestSize : Nat)
    (verifier : List Nat → List Nat) (checkInSequence : Nat → σ → Bool × σ)
    (st : σ) (data mac : List Nat) : Except AuthCodeError Unit × σ :=
  match uvarint mac with
  | none => (Except.error AuthCodeError.tooShort, st)
  | some (seqNum, seqSize) =>
    let saltSize : Int := (mac.length : Int) - seqSize - digestSize
    if saltSize < (macMinSaltSize : Int) then (Except.error AuthCodeError.tooShort, st)
    else
      let compareChecksum := verifier (mac.take (seqSize + saltSize.toNat) ++ data)
      if mac.drop (seqSize + saltSize.toNat) = compareChecksum then
        let res := checkInSequence seqNum st
        if res.1 then (Except.ok (), res.2)
        else (Except.error AuthCodeError.sequenceViolation, res.2)
      else (Except.error AuthCodeError.checksumMismatch, st)

/-- The encoder `putUvarint` emits at most `k + 1` bytes for values below
`128 ^ (k + 1)`. -/
theorem putUvarint_length (k : Nat) :
    ∀ x, x < 128 ^ (k + 1) → (putUvarint x).length ≤ k + 1 := by
  induction k with
  | zero =>
      intro x hx
      rw [putUvarint, dif_pos (by simpa using hx)]
      simp
  | succ k ih =>
      intro x hx
      rw [putUvarint]
      by_cases h : x < 128
      · rw [dif_pos h]; simp
      · rw [dif_neg h]
        have hdiv : x / 128 < 128 ^ (k + 1) :=
          Nat.div_lt_of_lt_mul (by rw [← pow_succ']; exact hx)
        have := ih (x / 128) hdiv
        simp only [List.length_cons]
        omega

/-- The three buffer writes of `Sign`, for any varint that fits the 9
reserved bytes: the truncated buffer is exactly varint, salt, digest. -/
theorem sign_buffer_eq (digestSize : Nat) (signer : List Nat → List Nat)
    (v salt data : List Nat) (hsalt : salt.length = 16) (hv : v.length ≤ 9)
    (hdig : (signer (v ++ salt ++ data)).length = digestSize) :
    (writeBytes (writeBytes (writeBytes (List.replicate (9 + 16 + digestSize) 0) 0 v)
        v.length salt) (v.length + 16)
      (signer ((writeBytes (writeBytes (List.replicate (9 + 16 + digestSize) 0) 0 v)
        v.length salt).take (v.length + 16) ++ data))).take (v.length + 16 + digestSize)
      = v ++ salt ++ signer (v ++ salt ++ data) := by
  have e1 : writeBytes (List.replicate (9 + 16 + digestSize) 0) 0 v
      = v ++ List.replicate (25 + digestSize - v.length) 0 := by
    simp only [writeBytes, List.take_zero, List.nil_append, List.length_replicate,
      List.drop_replicate, Nat.zero_add, Nat.sub_zero]
    rw [List.take_of_length_le (by omega),
      show 9 + 16 + digestSize - v.length = 25 + digestSize - v.length from by omega]
  have e2 : writeBytes (v ++ List.replicate (25 + digestSize - v.length) 0) v.length salt
      = v ++ salt ++ List.replicate (9 + digestSize - v.length) 0 := by
    simp only [writeBytes, List.length_append, List.length_replicate, List.take_left,
      hsalt, List.drop_append, List.drop_replicate]
    rw [show v.length + (25 + digestSize - v.length) - v.length
        = 25 + digestSize - v.length from by omega]
    rw [List.take_of_length_le (by omega),
      show 25 + digestSize - v.length - 16 = 9 + digestSize - v.length from by omega]
  have e3 : (v ++ salt ++ List.replicate (9 + digestSize - v.length) 0).take (v.length + 16)
      = v ++ salt := by
    rw [List.append_assoc, List.take_append, List.take_left' hsalt]
  rw [e1, e2, e3]
  have e4 : (signer ((v ++ salt) ++ data)).take
      ((v ++ salt ++ List.replicate (9 + digestSize - v.length) 0).length - (v.length + 16))
      = signer ((v ++ salt) ++ data) := by
    apply List.take_of_length_le
    simp only [List.length_append, List.length_replicate, hsalt]
    omega
  simp only [writeBytes]
  rw [e3, e4]
  apply List.take_left'
  simp only [List.length_append, hsalt]
  omega

/-- C5: for every data input, `Sign` returns exactly
`varint(sequence) || salt(16) || digest(prefix || data)` with no extra
bytes, where the sequence is the value issued by the checker's
`NextOutSequence` (here: the outbound counter plus one), provided the
salt is the 16 random bytes drawn, the varint fits its 9 reserved bytes
(sequence below 2⁶³; beyond that the Go code panics) and the signer
emits digests of the declared size. -/
theorem hash_based_mac_sign_layout (digestSize : Nat) (signer : List Nat → List Nat)
    (outSeq : Nat) (salt data : List Nat)
    (hsalt : salt.length = 16)
    (hseq : outSeq + 1 < 2 ^ 63)
    (hdig : (signer (putUvarint (outSeq + 1) ++ salt ++ data)).length = digestSize) :
    HashBasedMACSign digestSize signer outSeq salt data
      = (putUvarint (outSeq + 1) ++ salt ++ signer (putUvarint (outSeq + 1) ++ salt ++ data),
         (NextOutSequence outSeq).1) := by
  have hv : (putUvarint (outSeq + 1)).length ≤ 9 := by
    have h9 : outSeq + 1 < 128 ^ 9 := by
      have : (2 : Nat) ^ 63 = 128 ^ 9 := by norm_num
      omega
    exact putUvarint_length 8 (outSeq + 1) h9
  simp only [HashBasedMACSign, NextOutSequence, macSaltSize]
  rw [sign_buffer_eq digestSize signer (putUvarint (outSeq + 1)) salt data hsalt hv hdig]

/-- Characterization of `Verify` returning nil, shared helper: it
succeeds exactly when the varint parses, the salt region is at least 8
bytes, the trailing `digestSize` bytes equal the keyed digest of the
varint-and-salt region followed by the data, and the checker accepts. -/
theorem verify_ok_iff_aux {σ : Type} (digestSize : Nat)
    (verifier : List Nat → List Nat) (chk : Nat → σ → Bool × σ) (st : σ)
    (data mac : List Nat) :
    (HashBasedMACVerify digestSize verifier chk st data mac).1 = Except.ok () ↔
    ∃ v n, uvarint mac = some (v, n) ∧
      (8 : Int) ≤ (mac.length : Int) - n - digestSize ∧
      mac.drop (mac.length - digestSize)
        = verifier (mac.take (mac.length - digestSize) ++ data) ∧
      (chk v st).1 = true := by
  simp only [HashBasedMACVerify]
  cases huv : uvarint mac with
  | none => simp [huv]
  | some p =>
    obtain ⟨v0, n0⟩ := p
    simp only [huv, macMinSaltSize, Nat.cast_ofNat]
    by_cases hsz : ((mac.length : Int) - n0 - digestSize) < (8 : Int)
    · rw [if_pos hsz]
      constructor
      · intro h; exact absurd h (by simp)
      · rintro ⟨v, n, hvn, h8, -, -⟩
        simp only [Option.some.injEq, Prod.mk.injEq] at hvn
        obtain ⟨-, rfl⟩ := hvn
        omega
    · rw [if_neg hsz]
      have hpl : n0 + (((mac.length : Int) - n0 - digestSize).toNat)
          = mac.length - digestSize := by omega
      rw [hpl]
      by_cases hck : mac.drop (mac.length - digestSize)
          = verifier (mac.take (mac.length - digestSize) ++ data)
      · rw [if_pos hck]
        cases hok : (chk v0 st).1 with
        | true =>
            simp only [hok, if_true]
            constructor
            · intro _; exact ⟨v0, n0, rfl, by omega, hck, hok⟩
            · intro _; trivial
        | false =>
            simp only [hok, Bool.false_eq_true, if_false]
            constructor
            · intro h; exact absurd h (by simp)
            · rintro ⟨v, n, hvn, -, -, hok2⟩
              simp only [Option.some.injEq, Prod.mk.injEq] at hvn
              obtain ⟨rfl, -⟩ := hvn
              exact absurd hok2 (by simp [hok])
      · rw [if_neg hck]
        constructor
        · intro h; exact absurd h (by simp)
        · rintro ⟨v, n, hvn, -, hck2, -⟩
          exact absurd hck2 hck

/-- C4: `Verify(data, tag)` returns nil iff the leading uvarint parses,
`len(tag) - varintLen - digestSize >= 8`, the recomputed keyed digest
over the varint-and-salt region followed by the data equals the
trailing `digestSize` bytes of the tag, and the bound checker accepts
the parsed sequence number; in every other case the result is an
`AuthCodeError` (the `ErrAuthCodeInvalid` class, the result's only
error type). -/
theorem hash_based_mac_verify_ok_iff {σ : Type} (digestSize : Nat)
    (verifier : List Nat → List Nat) (chk : Nat → σ → Bool × σ) (st : σ)
    (data mac : List Nat) :
    (HashBasedMACVerify digestSize verifier chk st data mac).1 = Except.ok () ↔
    ∃ v n, uvarint mac = some (v, n) ∧
      (8 : Int) ≤ (mac.length : Int) - n - digestSize ∧
      mac.drop (mac.length - digestSize)
        = verifier (mac.take (mac.length - digestSize) ++ data) ∧
      (chk v st).1 = true :=
  verify_ok_iff_aux digestSize verifier chk st data mac

/-- C3: when `Verify` fails before the sequence check — varint parse
failure, undersized salt region, or checksum mismatch — the bound
checker's state is returned unchanged, and the entire outcome is
independent of the checker: any other checker (even over another state
type) yields the very same error with its own state untouched, so
`CheckInSequence` is never consulted. -/
theorem verify_failure_leaves_checker_untouched {σ σ' : Type} (digestSize : Nat)
    (verifier : List Nat → List Nat) (chk : Nat → σ → Bool × σ) (st : σ)
    (chk2 : Nat → σ' → Bool × σ') (st2 : σ') (data mac : List Nat)
    (e : AuthCodeError) (he : e ≠ AuthCodeError.sequenceViolation)
    (h : (HashBasedMACVerify digestSize verifier chk st data mac).1 = Except.error e) :
    (HashBasedMACVerify digestSize verifier chk st data mac).2 = st ∧
    HashBasedMACVerify digestSize verifier chk2 st2 data mac = (Except.error e, st2) := by
  simp only [HashBasedMACVerify] at h ⊢
  cases huv : uvarint mac with
  | none =>
      simp only [huv] at h ⊢
      simp only [Except.error.injEq] at h
      subst h
      exact ⟨trivial, rfl⟩
  | some p =>
    obtain ⟨v0, n0⟩ := p
    simp only [huv, macMinSaltSize, Nat.cast_ofNat] at h ⊢
    by_cases hsz : ((mac.length : Int) - n0 - digestSize) < (8 : Int)
    · rw [if_pos hsz] at h
      simp only [Except.error.injEq] at h
      subst h
      rw [if_pos hsz, if_pos hsz]
      exact ⟨rfl, rfl⟩
    · rw [if_neg hsz] at h
      by_cases hck : mac.drop (n0 + (((mac.length : Int) - n0 - digestSize).toNat))
          = verifier (mac.take (n0 + (((mac.length : Int) - n0 - digestSize).toNat)) ++ data)
      · rw [if_pos hck] at h
        cases hok : (chk v0 st).1 with
        | true => rw [hok] at h; simp at h
        | false =>
            rw [hok] at h
            simp only [Bool.false_eq_true, if_false, Except.error.injEq] at h
            exact absurd h.symm he
      · rw [if_neg hck] at h
        simp only [Except.error.injEq] at h
        subst h
        rw [if_neg hsz, if_neg hck, if_neg hsz, if_neg hck]
        exact ⟨rfl, rfl⟩

/-- Witness for C3: the empty tag fails varint parsing, so both a
strict checker (state 5) and a loose checker are left untouched and
yield the identical error. -/
theorem verify_failure_untouched_witness :
    (HashBasedMACVerify 1 (fun _ => [0]) StrictCheckInSequence 5 [] []).2 = 5 ∧
    HashBasedMACVerify 1 (fun _ => [0]) LooseCheckInSequence NewLooseSequenceChecker [] []
      = (Except.error AuthCodeError.tooShort, NewLooseSequenceChecker) :=
  verify_failure_leaves_checker_untouched 1 (fun _ => [0]) StrictCheckInSequence 5
    LooseCheckInSequence NewLooseSequenceChecker [] [] AuthCodeError.tooShort
    (by decide) rfl

/-- Witness for C5 with a constant one-byte digest and a zero salt. -/
theorem hash_based_mac_sign_layout_witness :
    HashBasedMACSign 1 (fun _ => [7]) 0 (List.replicate 16 0) []
      = (1 :: (List.replicate 16 0 ++ [7]), 1) := by
  have h := hash_based_mac_sign_layout 1 (fun _ => [7]) 0 (List.replicate 16 0) []
    (by simp) (by norm_num) rfl
  simpa [putUvarint, NextOutSequence] using h

/-- The varint of the first issued sequence number is the single byte 1. -/
theorem putUvarint_one : putUvarint 1 = [1] := by
  rw [putUvarint]
  simp

/-- Parsing a buffer whose first byte is 1 yields value 1, size 1. -/
theorem uvarint_cons_one (rest : List Nat) : uvarint (1 :: rest) = some (1, 1) := by
  simp [uvarint, uvarintLoop]

/-- Source `HashBasedMAC` handler (mac.go): two independently keyed hash
objects, modelled by their digest functions. -/
structure HashBasedMAC where
  signer : List Nat → List Nat
  verifier : List Nat → List Nat

/-- Source `MsgAuthCodeType.New` (mac.go): the handler signs with the hash
keyed by `signKey` and verifies with the hash keyed by `verifyKey`,
where `mk` is the keyed hash family (`hmac.New(BLAKE3.New, key)` or
`blake3.NewKeyed(key)`). -/
def NewAuthCodeHandler (mk : List Nat → List Nat → List Nat)
    (signKey verifyKey : List Nat) : HashBasedMAC :=
  { signer := mk signKey, verifier := mk verifyKey }

/-- C7: the tag from the first `Sign` call of the handler keyed
(signKey = A, verifyKey = B) verifies under the handler with the
swapped keys (signKey = B, verifyKey = A), each bound to a fresh
sequence checker (shown for the strict and the loose variant). -/
theorem mac_sign_verify_roundtrip (mk : List Nat → List Nat → List Nat)
    (A B : List Nat) (digestSize : Nat) (salt data : List Nat)
    (hsalt : salt.length = 16)
    (hdig : ∀ s, (mk A s).length = digestSize) :
    (HashBasedMACVerify digestSize (NewAuthCodeHandler mk B A).verifier
        StrictCheckInSequence StrictFresh data
        (HashBasedMACSign digestSize (NewAuthCodeHandler mk A B).signer 0 salt data).1).1
      = Except.ok () ∧
    (HashBasedMACVerify digestSize (NewAuthCodeHandler mk B A).verifier
        LooseCheckInSequence NewLooseSequenceChecker data
        (HashBasedMACSign digestSize (NewAuthCodeHandler mk A B).signer 0 salt data).1).1
      = Except.ok () := by
  have hproj1 : (NewAuthCodeHandler mk B A).verifier = mk A := rfl
  have hproj2 : (NewAuthCodeHandler mk A B).signer = mk A := rfl
  rw [hproj1, hproj2]
  have hv9 : (putUvarint 1).length ≤ 9 := by rw [putUvarint_one]; simp
  have htag : (HashBasedMACSign digestSize (mk A) 0 salt data).1
      = 1 :: (salt ++ mk A (1 :: (salt ++ data))) := by
    simp only [HashBasedMACSign, NextOutSequence, macSaltSize, Nat.zero_add]
    rw [sign_buffer_eq digestSize (mk A) (putUvarint 1) salt data hsalt hv9 (hdig _)]
    rw [putUvarint_one]
    simp
  rw [htag]
  have hlen : (1 :: (salt ++ mk A (1 :: (salt ++ data)))).length = 17 + digestSize := by
    simp only [List.length_cons, List.length_append, hsalt, hdig]
    omega
  have hsub : (1 :: (salt ++ mk A (1 :: (salt ++ data)))).length - digestSize = 16 + 1 := by
    rw [hlen]; omega
  have hck : (1 :: (salt ++ mk A (1 :: (salt ++ data)))).drop
        ((1 :: (salt ++ mk A (1 :: (salt ++ data)))).length - digestSize)
      = mk A ((1 :: (salt ++ mk A (1 :: (salt ++ data)))).take
          ((1 :: (salt ++ mk A (1 :: (salt ++ data)))).length - digestSize) ++ data) := by
    rw [hsub, List.drop_succ_cons, List.take_succ_cons,
      List.drop_left' hsalt, List.take_left' hsalt]
    simp
  constructor
  · rw [verify_ok_iff_aux]
    exact ⟨1, 1, uvarint_cons_one _, by rw [hlen]; push_cast; omega, hck, rfl⟩
  · rw [verify_ok_iff_aux]
    exact ⟨1, 1, uvarint_cons_one _, by rw [hlen]; push_cast; omega, hck, by decide⟩

/-- Witness for C7 with a constant one-byte keyed digest, concrete
keys and a zero salt. -/
theorem mac_sign_verify_roundtrip_witness :
    (HashBasedMACVerify 1 (NewAuthCodeHandler (fun _ _ => [9]) [2] [1]).verifier
        StrictCheckInSequence StrictFresh []
        (HashBasedMACSign 1 (NewAuthCodeHandler (fun _ _ => [9]) [1] [2]).signer 0
          (List.replicate 16 0) []).1).1 = Except.ok () ∧
    (HashBasedMACVerify 1 (NewAuthCodeHandler (fun _ _ => [9]) [2] [1]).verifier
        LooseCheckInSequence NewLooseSequenceChecker []
        (HashBasedMACSign 1 (NewAuthCodeHandler (fun _ _ => [9]) [1] [2]).signer 0
          (List.replicate 16 0) []).1).1 = Except.ok () :=
  mac_sign_verify_roundtrip (fun _ _ => [9]) [1] [2] 1 (List.replicate 16 0) []
    (by simp) (fun s => rfl)
